import Mathlib

/-!
Shallow embedding of the BlackjackSimulation repository
(src/src/constants.py, src/src/strategies.py, src/src/simulator.py,
with the GUI-side validation from src/sim.py / src/src/gui.py).

Python floats are modelled as rationals, Python ints as integers.
Outcomes are encoded as in the source: -1 = Loss, 0 = Tie, 1 = Win.
-/

namespace Blackjack

/-! ## Constants (src/src/constants.py) -/

def WIN_PROBABILITY : ℚ := 0.49

def LOSS_PROBABILITY : ℚ := 0.42

def TIE_PROBABILITY : ℚ := 0.09

def EXPECTED_VALUE_PER_DOLLAR : ℚ := -0.07

/-! ## Betting strategies (src/src/strategies.py) -/

/-- The five shipped strategy variants.  `paroli` carries its
`max_progression` constructor argument (the GUI instantiates `Paroli()`,
i.e. `max_progression = 3`). -/
inductive Strategy where
  | flat
  | martingale
  | fibonacci
  | paroli (max_progression : ℤ)
  | progressive
  deriving DecidableEq

/-- `Fibonacci.__init__`: the precomputed table `self.fib_sequence`. -/
def fib_sequence : List ℚ := [1, 1, 2, 3, 5, 8, 13, 21, 34, 55, 89, 144, 233, 377, 610]

/-- `get_bet_amount(self, base_bet, current_streak, total_profit, hand_number, max_bet)`
for each strategy class.  The `total_profit` and `hand_number` parameters are kept in
the signature exactly as in the source even though no variant reads them. -/
def Strategy.get_bet_amount (strat : Strategy) (base_bet : ℚ) (current_streak : ℤ)
    (total_profit : ℚ) (hand_number : ℤ) (max_bet : ℚ) : ℚ :=
  match strat with
  | .flat => min base_bet max_bet
  | .martingale =>
      if 0 ≤ current_streak then min base_bet max_bet
      else min (base_bet * 2 ^ current_streak.natAbs) max_bet
  | .fibonacci =>
      if 0 ≤ current_streak then min base_bet max_bet
      else
        let loss_count := current_streak.natAbs
        let fib_index := min loss_count (fib_sequence.length - 1)
        min (base_bet * fib_sequence.getD fib_index 0) max_bet
  | .paroli max_progression =>
      if current_streak ≤ 0 then min base_bet max_bet
      else
        let progression := min current_streak max_progression
        min (base_bet * (2 : ℚ) ^ progression) max_bet
  | .progressive =>
      if 0 < current_streak then
        min (base_bet + (current_streak : ℚ) * base_bet * 0.5) max_bet
      else if current_streak < 0 then
        min (max (base_bet * 0.5) (base_bet + (current_streak : ℚ) * base_bet * 0.5)) max_bet
      else min base_bet max_bet

/-! ## Simulator state (src/src/simulator.py, `BlackjackSimulator`) -/

structure SimState where
  num_hands : ℤ
  base_bet : ℚ
  max_bet : ℚ
  strategy : Strategy
  total_profit : ℚ
  hand_results : List ℤ
  profit_history : List ℚ
  bet_history : List ℚ
  expected_value_history : List ℚ
  longest_win_streak : ℤ
  current_win_streak : ℤ
  longest_loss_streak : ℤ
  current_loss_streak : ℤ
  highest_profit : ℚ
  lowest_profit : ℚ
  current_hand : ℤ
  is_running : Bool
  deriving DecidableEq

/-- `BlackjackSimulator.__init__`: stores the configuration and zeroes every
running total.  Note that the constructor performs no validation of its
arguments. -/
def init (num_hands : ℤ) (base_bet max_bet : ℚ) (strategy : Strategy) : SimState :=
  { num_hands := num_hands
    base_bet := base_bet
    max_bet := max_bet
    strategy := strategy
    total_profit := 0
    hand_results := []
    profit_history := []
    bet_history := []
    expected_value_history := []
    longest_win_streak := 0
    current_win_streak := 0
    longest_loss_streak := 0
    current_loss_streak := 0
    highest_profit := 0
    lowest_profit := 0
    current_hand := 0
    is_running := false }

/-- `BlackjackSimulator.play_hand`, with the uniform draw `np.random.random()`
passed in explicitly.  Encoding: -1 = Loss, 1 = Win, 0 = Tie. -/
def play_hand (outcome : ℚ) : ℤ :=
  if outcome ≤ WIN_PROBABILITY then -1
  else if outcome ≤ WIN_PROBABILITY + LOSS_PROBABILITY then 1
  else 0

/-- `BlackjackSimulator.update_statistics(result, bet_amount)`.  Each field
below is the value the corresponding attribute holds after the method: every
attribute is written at most once, and every read of a mutated attribute
happens after its write, so the simultaneous record update is exact. -/
def update_statistics (s : SimState) (result : ℤ) (bet_amount : ℚ) : SimState :=
  let total_profit :=
    if result = -1 then s.total_profit - bet_amount
    else if result = 1 then s.total_profit + bet_amount
    else s.total_profit
  let current_win_streak :=
    if result = -1 then 0
    else if result = 1 then s.current_win_streak + 1
    else s.current_win_streak
  let current_loss_streak :=
    if result = -1 then s.current_loss_streak - 1
    else if result = 1 then 0
    else s.current_loss_streak
  let cumulative_ev :=
    match s.expected_value_history.getLast? with
    | none => EXPECTED_VALUE_PER_DOLLAR * bet_amount
    | some prev => prev + EXPECTED_VALUE_PER_DOLLAR * bet_amount
  { s with
    total_profit := total_profit
    current_win_streak := current_win_streak
    current_loss_streak := current_loss_streak
    hand_results := s.hand_results ++ [result]
    profit_history := s.profit_history ++ [total_profit]
    bet_history := s.bet_history ++ [bet_amount]
    expected_value_history := s.expected_value_history ++ [cumulative_ev]
    highest_profit := if s.highest_profit < total_profit then total_profit else s.highest_profit
    lowest_profit := if total_profit < s.lowest_profit then total_profit else s.lowest_profit
    longest_win_streak :=
      if s.longest_win_streak < current_win_streak then current_win_streak
      else s.longest_win_streak
    longest_loss_streak :=
      if current_loss_streak < s.longest_loss_streak then current_loss_streak
      else s.longest_loss_streak }

/-- The signed streak expression passed to the strategy in `run_single_hand`:
`current_win_streak if current_win_streak > 0 else current_loss_streak`. -/
def signed_streak (s : SimState) : ℤ :=
  if 0 < s.current_win_streak then s.current_win_streak else s.current_loss_streak

/-- `BlackjackSimulator.run_single_hand`, with the uniform draw for this hand
passed in explicitly.  Returns the boolean the method returns together with
the updated state. -/
def run_single_hand (s : SimState) (u : ℚ) : Bool × SimState :=
  if s.num_hands ≤ s.current_hand then (false, s)
  else
    let result := play_hand u
    let bet_amount :=
      s.strategy.get_bet_amount s.base_bet (signed_streak s) s.total_profit
        s.current_hand s.max_bet
    let s1 := update_statistics s result bet_amount
    (true, { s1 with current_hand := s1.current_hand + 1 })

/-- Driving the simulator through one `run_single_hand` call per element of a
list of injected uniform draws (the deterministic test seam for the random
source). -/
def runFrom (s : SimState) : List ℚ → SimState
  | [] => s
  | u :: us => runFrom (run_single_hand s u).2 us

/-- `k` successive `run_single_hand` calls fed from a stream of draws. -/
def run_hands_fuel : ℕ → SimState → (ℕ → ℚ) → SimState
  | 0, s, _ => s
  | k + 1, s, d => run_hands_fuel k (run_single_hand s (d 0)).2 (fun i => d (i + 1))

/-- `BlackjackSimulator.run_all_hands`: the `while current_hand < num_hands`
loop.  Each loop iteration increments `current_hand` by exactly one, so the
loop performs exactly `(num_hands - current_hand).toNat` iterations; the fuel
below is that exact count. -/
def run_all_hands (s : SimState) (d : ℕ → ℚ) : SimState :=
  run_hands_fuel (s.num_hands - s.current_hand).toNat s d

/-! ## Statistics snapshot (`BlackjackSimulator.get_statistics`) -/

structure Stats where
  wins : ℕ
  losses : ℕ
  ties : ℕ
  win_percentage : ℚ
  loss_percentage : ℚ
  tie_percentage : ℚ
  longest_win_streak : ℤ
  longest_loss_streak : ℤ
  highest_profit : ℚ
  lowest_profit : ℚ
  final_profit : ℚ
  total_bet : ℚ
  avg_bet : ℚ
  max_bet_used : ℚ
  deriving DecidableEq

/-- `BlackjackSimulator.get_statistics`: returns `none` when no hand has been
played (`total_hands == 0`), otherwise the statistics dictionary. -/
def get_statistics (s : SimState) : Option Stats :=
  let wins := s.hand_results.count 1
  let losses := s.hand_results.count (-1)
  let ties := s.hand_results.count 0
  let total_hands := s.hand_results.length
  if total_hands = 0 then none
  else some
    { wins := wins
      losses := losses
      ties := ties
      win_percentage := ((wins : ℚ) / total_hands) * 100
      loss_percentage := ((losses : ℚ) / total_hands) * 100
      tie_percentage := ((ties : ℚ) / total_hands) * 100
      longest_win_streak := s.longest_win_streak
      longest_loss_streak := |s.longest_loss_streak|
      highest_profit := s.highest_profit
      lowest_profit := s.lowest_profit
      final_profit := s.total_profit
      total_bet := s.bet_history.sum
      avg_bet :=
        match s.bet_history with
        | [] => 0
        | b :: bs => (b :: bs).sum / (b :: bs).length
      max_bet_used :=
        match s.bet_history with
        | [] => 0
        | b :: bs => bs.foldl max b }

/-! ## GUI-side configuration validation (src/src/gui.py `start_simulation`) -/

/-- The checks `start_simulation` performs on the parsed inputs before it
constructs a `BlackjackSimulator`; `false` means a `ValueError` is raised and
no engine is built. -/
def gui_validates (num_hands : ℤ) (base_bet max_bet : ℚ) : Bool :=
  if num_hands ≤ 0 ∨ base_bet ≤ 0 ∨ max_bet ≤ 0 then false
  else if max_bet < base_bet then false
  else true

end Blackjack

namespace Blackjack

/-! ## Basic lemmas about single steps -/

lemma play_hand_cases (u : ℚ) : play_hand u = -1 ∨ play_hand u = 1 ∨ play_hand u = 0 := by
  unfold play_hand; split_ifs <;> simp

lemma run_single_hand_of_done (s : SimState) (u : ℚ) (h : s.num_hands ≤ s.current_hand) :
    run_single_hand s u = (false, s) := by
  unfold run_single_hand; rw [if_pos h]

lemma run_single_hand_of_lt (s : SimState) (u : ℚ) (h : s.current_hand < s.num_hands) :
    run_single_hand s u =
      (true,
        { update_statistics s (play_hand u)
            (s.strategy.get_bet_amount s.base_bet (signed_streak s) s.total_profit
              s.current_hand s.max_bet) with
          current_hand := s.current_hand + 1 }) := by
  unfold run_single_hand
  rw [if_neg (not_le.mpr h)]
  rfl

lemma run_single_hand_snd_cases (s : SimState) (u : ℚ) :
    (run_single_hand s u).2 = s ∨
      (s.current_hand < s.num_hands ∧
        (run_single_hand s u).2 =
          { update_statistics s (play_hand u)
              (s.strategy.get_bet_amount s.base_bet (signed_streak s) s.total_profit
                s.current_hand s.max_bet) with
            current_hand := s.current_hand + 1 }) := by
  rcases le_or_lt s.num_hands s.current_hand with h | h
  · left; rw [run_single_hand_of_done s u h]
  · right; exact ⟨h, by rw [run_single_hand_of_lt s u h]⟩

lemma runFrom_preserves {P : SimState → Prop}
    (hstep : ∀ s u, P s → P (run_single_hand s u).2) :
    ∀ (us : List ℚ) (s : SimState), P s → P (runFrom s us) := by
  intro us
  induction us with
  | nil => intro s h; exact h
  | cons u us ih => intro s h; exact ih _ (hstep s u h)

lemma run_hands_fuel_preserves {P : SimState → Prop}
    (hstep : ∀ s u, P s → P (run_single_hand s u).2) :
    ∀ (k : ℕ) (s : SimState) (d : ℕ → ℚ), P s → P (run_hands_fuel k s d) := by
  intro k
  induction k with
  | zero => intro s d h; exact h
  | succ k ih => intro s d h; exact ih _ _ (hstep s (d 0) h)

/-! ## C1: outcome boundaries of `play_hand` -/

/-- C1, counterexample: the draw u = 0.45 lies in the interval [0.42, 0.91)
that the claim assigns to Win, yet `play_hand` returns Loss (-1), because the
code compares `u <= WIN_PROBABILITY` (0.49) first and maps that to Loss. -/
theorem C1_counterexample :
    (42 : ℚ)/100 ≤ 45/100 ∧ (45 : ℚ)/100 < 91/100 ∧
    play_hand (45/100) = -1 ∧ play_hand (45/100) ≠ 1 := by
  norm_num [play_hand, WIN_PROBABILITY]

/-- C1, amended: `play_hand` returns Loss iff u ≤ 0.49, Win iff
0.49 < u ≤ 0.91, and Tie iff 0.91 < u.  The first cumulative boundary is the
constant `WIN_PROBABILITY` = 0.49 (mapped to Loss — the probabilities are
deliberately inverted), the second is 0.49 + 0.42 = 0.91, and both
comparisons are inclusive. -/
theorem C1_outcome_boundaries (u : ℚ) :
    (play_hand u = -1 ↔ u ≤ 49/100) ∧
    (play_hand u = 1 ↔ 49/100 < u ∧ u ≤ 91/100) ∧
    (play_hand u = 0 ↔ 91/100 < u) ∧
    WIN_PROBABILITY = 49/100 ∧ LOSS_PROBABILITY = 42/100 := by
  have hW : WIN_PROBABILITY = 49/100 := by norm_num [WIN_PROBABILITY]
  have hL : LOSS_PROBABILITY = 42/100 := by norm_num [LOSS_PROBABILITY]
  have key : play_hand u = if u ≤ 49/100 then -1 else if u ≤ 91/100 then 1 else 0 := by
    unfold play_hand
    rw [hW, hL]
    norm_num
  rcases le_or_lt u (49/100) with h1 | h1
  · have hp : play_hand u = -1 := by rw [key, if_pos h1]
    refine ⟨?_, ?_, ?_, hW, hL⟩ <;> rw [hp]
    · simp [h1]
    · constructor
      · intro hc; exact absurd hc (by decide)
      · rintro ⟨hlt, _⟩; linarith
    · constructor
      · intro hc; exact absurd hc (by decide)
      · intro hlt; linarith
  · rcases le_or_lt u (91/100) with h2 | h2
    · have hp : play_hand u = 1 := by rw [key, if_neg (not_le.mpr h1), if_pos h2]
      refine ⟨?_, ?_, ?_, hW, hL⟩ <;> rw [hp]
      · constructor
        · intro hc; exact absurd hc (by decide)
        · intro hle; linarith
      · simp [h1, h2]
      · constructor
        · intro hc; exact absurd hc (by decide)
        · intro hlt; linarith
    · have hp : play_hand u = 0 := by
        rw [key, if_neg (not_le.mpr h1), if_neg (not_le.mpr h2)]
      refine ⟨?_, ?_, ?_, hW, hL⟩ <;> rw [hp]
      · constructor
        · intro hc; exact absurd hc (by decide)
        · intro hle; linarith
      · constructor
        · intro hc; exact absurd hc (by decide)
        · rintro ⟨_, hle⟩; linarith
      · simp [h2]

end Blackjack

namespace Blackjack

/-! ## C2: construction-time validation -/

/-- C2, counterexample: the configuration (round_count = 1,
base_stake = -1 ≤ 0, max_stake = -2 < base_stake) is invalid by the claim,
yet the constructor produces a fully usable engine: `run_single_hand`
executes a round on it and records a result.  No error is reported at
construction. -/
theorem C2_counterexample :
    ((-1 : ℚ) ≤ 0 ∧ (-2 : ℚ) < -1) ∧
    (run_single_hand (init 1 (-1) (-2) Strategy.flat) 0).1 = true ∧
    (runFrom (init 1 (-1) (-2) Strategy.flat) [0]).hand_results = [-1] := by
  refine ⟨by norm_num, ?_, ?_⟩ <;>
    norm_num [runFrom, run_single_hand, init, update_statistics, play_hand, signed_streak,
      Strategy.get_bet_amount, WIN_PROBABILITY, LOSS_PROBABILITY, EXPECTED_VALUE_PER_DOLLAR]

/-- C2, amended: `BlackjackSimulator.__init__` performs no validation — for
every configuration, valid or not, it yields an engine whose first step runs
normally (the step succeeds iff round_count > 0, regardless of the stake
parameters).  The rejection of invalid configurations happens in the GUI
layer before construction: `start_simulation` fails exactly when
round_count ≤ 0, base_stake ≤ 0, max_stake ≤ 0, or max_stake < base_stake. -/
theorem C2_no_construction_validation (n : ℤ) (b m : ℚ) (strat : Strategy) (u : ℚ) :
    ((run_single_hand (init n b m strat) u).1 = true ↔ 0 < n) ∧
    (gui_validates n b m = false ↔ (n ≤ 0 ∨ b ≤ 0 ∨ m ≤ 0 ∨ m < b)) := by
  constructor
  · rcases le_or_lt n 0 with hn | hn
    · rw [run_single_hand_of_done (init n b m strat) u hn]
      simp
      omega
    · rw [run_single_hand_of_lt (init n b m strat) u hn]
      simp [hn]
  · unfold gui_validates
    split_ifs with h1 h2
    · exact iff_of_true rfl (by tauto)
    · exact iff_of_true rfl (Or.inr (Or.inr (Or.inr h2)))
    · constructor
      · intro hc; exact absurd hc (by simp)
      · intro hc
        rcases hc with hc | hc | hc | hc
        · exact absurd (Or.inl hc) h1
        · exact absurd (Or.inr (Or.inl hc)) h1
        · exact absurd (Or.inr (Or.inr hc)) h1
        · exact absurd hc h2

/-! ## C4: a tie is a frame on profit and streaks -/

/-- C4: when the drawn outcome of a round is a Tie (`play_hand u = 0`), the
round leaves the cumulative profit, the current win streak and the current
loss streak exactly as they were, and hence the signed streak handed to the
strategy on the next round is unchanged. -/
theorem C4_tie_frame (s : SimState) (u : ℚ) (h : play_hand u = 0) :
    (run_single_hand s u).2.total_profit = s.total_profit ∧
    (run_single_hand s u).2.current_win_streak = s.current_win_streak ∧
    (run_single_hand s u).2.current_loss_streak = s.current_loss_streak ∧
    signed_streak (run_single_hand s u).2 = signed_streak s := by
  rcases run_single_hand_snd_cases s u with hc | ⟨_, hc⟩
  · rw [hc]; exact ⟨rfl, rfl, rfl, rfl⟩
  · rw [hc, h]
    refine ⟨?_, ?_, ?_, ?_⟩ <;>
      norm_num [update_statistics, signed_streak]

/-- C4, witness: a concrete tie round (draw 0.95) on a freshly constructed
engine leaves profit and both streaks at their previous values. -/
theorem C4_tie_frame_witness :
    play_hand (95/100) = 0 ∧
    (run_single_hand (init 5 10 100 Strategy.martingale) (95/100)).2.total_profit =
      (init 5 10 100 Strategy.martingale).total_profit :=
  ⟨by norm_num [play_hand, WIN_PROBABILITY, LOSS_PROBABILITY],
   (C4_tie_frame (init 5 10 100 Strategy.martingale) (95/100)
      (by norm_num [play_hand, WIN_PROBABILITY, LOSS_PROBABILITY])).1⟩

/-! ## C7: the Fibonacci ladder -/

/-- C7, counterexample: the claim asserts that every streak of magnitude at
least 14 yields stake `min(base×610, max)`, but for the positive streak +14
(magnitude 14) the code takes the `streak ≥ 0` branch and returns the base
stake: with base = 10, max = 100000 the stake is 10, not min(6100, 100000). -/
theorem C7_counterexample :
    14 ≤ (14 : ℤ).natAbs ∧
    Strategy.get_bet_amount .fibonacci 10 14 0 0 100000 = 10 ∧
    Strategy.get_bet_amount .fibonacci 10 14 0 0 100000 ≠ min (10 * 610) 100000 := by
  norm_num [Strategy.get_bet_amount]

/-- C7, amended: for the Fibonacci strategy with base_stake > 0, a signed
streak of -4 yields `min(base×5, max)` (fib[4] = 5); every *negative* streak
of magnitude at least the last table index 14 yields `min(base×610, max)`,
the table's last entry; and every streak ≥ 0 yields `min(base, max)`. -/
theorem C7_fibonacci_ladder (base max_bet p : ℚ) (hn : ℤ) (hb : 0 < base) :
    Strategy.get_bet_amount .fibonacci base (-4) p hn max_bet = min (base * 5) max_bet ∧
    (∀ s : ℤ, s ≤ -14 →
      Strategy.get_bet_amount .fibonacci base s p hn max_bet = min (base * 610) max_bet) ∧
    (∀ s : ℤ, 0 ≤ s →
      Strategy.get_bet_amount .fibonacci base s p hn max_bet = min base max_bet) := by
  refine ⟨?_, ?_, ?_⟩
  · norm_num [Strategy.get_bet_amount, fib_sequence]
  · intro s hs
    have h0 : ¬ (0 ≤ s) := by omega
    have hge : 14 ≤ s.natAbs := by omega
    have hmin : min s.natAbs (fib_sequence.length - 1) = 14 := by
      have hlen : fib_sequence.length - 1 = 14 := by norm_num [fib_sequence]
      omega
    simp only [Strategy.get_bet_amount, if_neg h0]
    rw [hmin]
    norm_num [fib_sequence]
  · intro s hs
    simp only [Strategy.get_bet_amount, if_pos hs]

/-- C7, witness: base = 10, max = 1000, streak = -4 gives stake 50 = 10×5. -/
theorem C7_fibonacci_ladder_witness :
    (0 : ℚ) < 10 ∧
    Strategy.get_bet_amount .fibonacci 10 (-4) 0 0 1000 = min (10 * 5) 1000 :=
  ⟨by norm_num, (C7_fibonacci_ladder 10 1000 0 0 (by norm_num)).1⟩

/-! ## C8: stepping past completion is a no-op -/

/-- C8: once `current_hand` has reached `num_hands`, `run_single_hand`
returns `false` and leaves the entire state unchanged, and any number of
repeated calls likewise changes nothing. -/
theorem C8_step_idempotent_past_completion (s : SimState) (u : ℚ) (d : ℕ → ℚ)
    (h : s.num_hands ≤ s.current_hand) :
    run_single_hand s u = (false, s) ∧ ∀ k : ℕ, run_hands_fuel k s d = s := by
  refine ⟨run_single_hand_of_done s u h, ?_⟩
  intro k
  induction k generalizing d with
  | zero => rfl
  | succ k ih =>
      show run_hands_fuel k (run_single_hand s (d 0)).2 _ = s
      rw [show (run_single_hand s (d 0)).2 = s from by rw [run_single_hand_of_done s (d 0) h]]
      exact ih _

/-- C8, witness: an engine constructed with zero rounds is already exhausted,
and a step on it returns `false` with the state intact. -/
theorem C8_step_idempotent_witness :
    (init 0 10 100 Strategy.flat).num_hands ≤ (init 0 10 100 Strategy.flat).current_hand ∧
    run_single_hand (init 0 10 100 Strategy.flat) (1/2) = (false, init 0 10 100 Strategy.flat) :=
  ⟨by norm_num [init],
   (C8_step_idempotent_past_completion (init 0 10 100 Strategy.flat) (1/2) (fun _ => 0)
      (by norm_num [init])).1⟩

/-! ## C10: stakes ignore total_profit and hand_number -/

/-- C10: for every shipped strategy variant, `get_bet_amount` is independent
of its `total_profit` and `hand_number` arguments — calls differing only in
those two arguments return the same stake. -/
theorem C10_stake_ignores_profit_and_hand (strat : Strategy) (base max_bet : ℚ)
    (streak : ℤ) (p1 p2 : ℚ) (n1 n2 : ℤ) :
    strat.get_bet_amount base streak p1 n1 max_bet =
      strat.get_bet_amount base streak p2 n2 max_bet := by
  cases strat <;> rfl

end Blackjack

namespace Blackjack

/-! ## C9: running peak and trough include the starting bankroll -/

lemma ite_lt_eq_max (a b : ℚ) : (if a < b then b else a) = max a b := by
  rcases le_or_lt b a with h | h
  · rw [if_neg (not_lt.mpr h), max_eq_left h]
  · rw [if_pos h, max_eq_right h.le]

lemma ite_lt_eq_min (a b : ℚ) : (if b < a then b else a) = min a b := by
  rcases le_or_lt a b with h | h
  · rw [if_neg (not_lt.mpr h), min_eq_left h]
  · rw [if_pos h, min_eq_right h.le]

lemma foldl_max_init_le (l : List ℚ) : ∀ a : ℚ, a ≤ l.foldl max a := by
  induction l with
  | nil => intro a; exact le_refl a
  | cons x t ih => intro a; exact le_trans (le_max_left a x) (ih (max a x))

lemma mem_le_foldl_max (l : List ℚ) : ∀ (a x : ℚ), x ∈ l → x ≤ l.foldl max a := by
  induction l with
  | nil => intro a x hx; cases hx
  | cons y t ih =>
      intro a x hx
      rcases List.mem_cons.mp hx with rfl | hx
      · exact le_trans (le_max_right a x) (foldl_max_init_le t _)
      · exact ih _ x hx

lemma foldl_min_le_init (l : List ℚ) : ∀ a : ℚ, l.foldl min a ≤ a := by
  induction l with
  | nil => intro a; exact le_refl a
  | cons x t ih => intro a; exact le_trans (ih (min a x)) (min_le_left a x)

lemma foldl_min_le_mem (l : List ℚ) : ∀ (a x : ℚ), x ∈ l → l.foldl min a ≤ x := by
  induction l with
  | nil => intro a x hx; cases hx
  | cons y t ih =>
      intro a x hx
      rcases List.mem_cons.mp hx with rfl | hx
      · exact le_trans (foldl_min_le_init t _) (min_le_right a x)
      · exact ih _ x hx

/-- The running extrema are exactly the fold of max/min over the profit
curve, seeded with the starting bankroll 0. -/
def ExtremaInv (s : SimState) : Prop :=
  s.highest_profit = s.profit_history.foldl max 0 ∧
  s.lowest_profit = s.profit_history.foldl min 0

lemma update_statistics_highest (s : SimState) (r : ℤ) (b : ℚ) :
    (update_statistics s r b).highest_profit =
      if s.highest_profit < (update_statistics s r b).total_profit
      then (update_statistics s r b).total_profit else s.highest_profit := rfl

lemma update_statistics_lowest (s : SimState) (r : ℤ) (b : ℚ) :
    (update_statistics s r b).lowest_profit =
      if (update_statistics s r b).total_profit < s.lowest_profit
      then (update_statistics s r b).total_profit else s.lowest_profit := rfl

lemma update_statistics_profit_history (s : SimState) (r : ℤ) (b : ℚ) :
    (update_statistics s r b).profit_history =
      s.profit_history ++ [(update_statistics s r b).total_profit] := rfl

lemma extremaInv_update (s : SimState) (r : ℤ) (b : ℚ) (h : ExtremaInv s) :
    ExtremaInv (update_statistics s r b) := by
  obtain ⟨hh, hl⟩ := h
  constructor
  · rw [update_statistics_highest, update_statistics_profit_history, List.foldl_append,
      ← hh, ite_lt_eq_max]
    rfl
  · rw [update_statistics_lowest, update_statistics_profit_history, List.foldl_append,
      ← hl, ite_lt_eq_min]
    rfl

lemma extremaInv_step (s : SimState) (u : ℚ) (h : ExtremaInv s) :
    ExtremaInv (run_single_hand s u).2 := by
  rcases run_single_hand_snd_cases s u with hc | ⟨_, hc⟩
  · rw [hc]; exact h
  · rw [hc]; exact extremaInv_update _ _ _ h

/-- C9: after any sequence of rounds, the running peak equals the maximum of
the profit curve including the starting bankroll 0 (`foldl max 0`), and the
running trough equals the corresponding minimum; hence the peak is never
negative and the trough never positive — a losses-only run reports peak 0. -/
theorem C9_extrema_include_zero (n : ℤ) (base max_bet : ℚ) (strat : Strategy) (us : List ℚ) :
    (runFrom (init n base max_bet strat) us).highest_profit =
      (runFrom (init n base max_bet strat) us).profit_history.foldl max 0 ∧
    (runFrom (init n base max_bet strat) us).lowest_profit =
      (runFrom (init n base max_bet strat) us).profit_history.foldl min 0 ∧
    0 ≤ (runFrom (init n base max_bet strat) us).highest_profit ∧
    (runFrom (init n base max_bet strat) us).lowest_profit ≤ 0 ∧
    ∀ p ∈ (runFrom (init n base max_bet strat) us).profit_history,
      (runFrom (init n base max_bet strat) us).lowest_profit ≤ p ∧
      p ≤ (runFrom (init n base max_bet strat) us).highest_profit := by
  have h : ExtremaInv (runFrom (init n base max_bet strat) us) :=
    runFrom_preserves extremaInv_step us _ ⟨rfl, rfl⟩
  obtain ⟨hh, hl⟩ := h
  refine ⟨hh, hl, ?_, ?_, ?_⟩
  · rw [hh]; exact foldl_max_init_le _ 0
  · rw [hl]; exact foldl_min_le_init _ 0
  · intro p hp
    constructor
    · rw [hl]; exact foldl_min_le_mem _ 0 p hp
    · rw [hh]; exact mem_le_foldl_max _ 0 p hp

end Blackjack

namespace Blackjack

/-! ## C3: stakes are clamped to [0, max_stake] -/

lemma fib_getD_nonneg (i : ℕ) : 0 ≤ fib_sequence.getD i 0 := by
  rcases Nat.lt_or_ge i 15 with h | h
  · interval_cases i <;> norm_num [fib_sequence]
  · rw [List.getD_eq_default]
    exact h

/-- Every strategy's stake, for any signed streak, lies in `[0, max_bet]`
whenever `0 < base_bet ≤ max_bet`. -/
lemma get_bet_amount_bounds (strat : Strategy) (base max_bet : ℚ) (streak : ℤ)
    (p : ℚ) (hn : ℤ) (hb : 0 < base) (hm : base ≤ max_bet) :
    0 ≤ strat.get_bet_amount base streak p hn max_bet ∧
      strat.get_bet_amount base streak p hn max_bet ≤ max_bet := by
  have hmax : (0 : ℚ) < max_bet := lt_of_lt_of_le hb hm
  have key : ∀ bet : ℚ, 0 ≤ bet → 0 ≤ min bet max_bet ∧ min bet max_bet ≤ max_bet :=
    fun bet hbet => ⟨le_min hbet hmax.le, min_le_right _ _⟩
  cases strat with
  | flat => exact key base hb.le
  | martingale =>
      simp only [Strategy.get_bet_amount]
      split_ifs
      · exact key base hb.le
      · exact key _ (mul_nonneg hb.le (pow_nonneg (by norm_num) _))
  | fibonacci =>
      simp only [Strategy.get_bet_amount]
      split_ifs
      · exact key base hb.le
      · exact key _ (mul_nonneg hb.le (fib_getD_nonneg _))
  | paroli mp =>
      simp only [Strategy.get_bet_amount]
      split_ifs
      · exact key base hb.le
      · exact key _ (mul_nonneg hb.le (zpow_pos (by norm_num : (0:ℚ) < 2) _).le)
  | progressive =>
      simp only [Strategy.get_bet_amount]
      split_ifs with h1 h2
      · refine key _ ?_
        have hs : (1 : ℚ) ≤ (streak : ℚ) := by exact_mod_cast h1
        nlinarith
      · refine key _ ?_
        exact le_trans (mul_nonneg hb.le (by norm_num)) (le_max_left _ _)
      · exact key base hb.le

/-- Along any run with configuration `(base, max_bet)`, every recorded stake
lies in `[0, max_bet]`. -/
def BetInv (base max_bet : ℚ) (s : SimState) : Prop :=
  s.base_bet = base ∧ s.max_bet = max_bet ∧
    ∀ b ∈ s.bet_history, 0 ≤ b ∧ b ≤ max_bet

lemma betInv_step (base max_bet : ℚ) (hb : 0 < base) (hm : base ≤ max_bet)
    (s : SimState) (u : ℚ) (h : BetInv base max_bet s) :
    BetInv base max_bet (run_single_hand s u).2 := by
  obtain ⟨h1, h2, h3⟩ := h
  rcases run_single_hand_snd_cases s u with hc | ⟨_, hc⟩
  · rw [hc]; exact ⟨h1, h2, h3⟩
  · rw [hc]
    refine ⟨h1, h2, ?_⟩
    intro b hbmem
    have hmem : b ∈ s.bet_history ++
        [s.strategy.get_bet_amount s.base_bet (signed_streak s) s.total_profit
          s.current_hand s.max_bet] := hbmem
    rcases List.mem_append.mp hmem with hmem' | hmem'
    · exact h3 b hmem'
    · have hbeq := List.mem_singleton.mp hmem'
      subst hbeq
      rw [h1, h2]
      exact get_bet_amount_bounds s.strategy base max_bet _ _ _ hb hm

/-- C3: with `0 < base_stake ≤ max_stake`, every strategy variant returns a
stake in `[0, max_stake]` for every signed streak (and any profit/round
index), and consequently every stake recorded in the bet history of any run
lies in `[0, max_stake]`. -/
theorem C3_stakes_bounded (strat : Strategy) (base max_bet : ℚ)
    (hb : 0 < base) (hm : base ≤ max_bet) :
    (∀ (streak : ℤ) (p : ℚ) (hn : ℤ),
        0 ≤ strat.get_bet_amount base streak p hn max_bet ∧
          strat.get_bet_amount base streak p hn max_bet ≤ max_bet) ∧
    ∀ (n : ℤ) (us : List ℚ) (b : ℚ),
        b ∈ (runFrom (init n base max_bet strat) us).bet_history →
        0 ≤ b ∧ b ≤ max_bet := by
  refine ⟨fun streak p hn => get_bet_amount_bounds strat base max_bet streak p hn hb hm, ?_⟩
  intro n us b hbmem
  have h : BetInv base max_bet (runFrom (init n base max_bet strat) us) :=
    runFrom_preserves (betInv_step base max_bet hb hm) us _
      ⟨rfl, rfl, fun b hb' => absurd hb' (List.not_mem_nil b)⟩
  exact h.2.2 b hbmem

/-- C3, witness: Martingale, base 10, max 1000, streak -3 — the stake 80 is
within `[0, 1000]`. -/
theorem C3_stakes_bounded_witness :
    (0 : ℚ) < 10 ∧ (10 : ℚ) ≤ 1000 ∧
    (0 ≤ Strategy.get_bet_amount .martingale 10 (-3) 0 0 1000 ∧
      Strategy.get_bet_amount .martingale 10 (-3) 0 0 1000 ≤ 1000) :=
  ⟨by norm_num, by norm_num,
   (C3_stakes_bounded .martingale 10 1000 (by norm_num) (by norm_num)).1 (-3) 0 0⟩

end Blackjack

namespace Blackjack

/-! ## C5: the expected-value line is the cumulative sum of EV × stake -/

lemma getD_append_lt (l l2 : List ℚ) : ∀ n, n < l.length → (l ++ l2).getD n 0 = l.getD n 0 := by
  induction l with
  | nil => intro n h; simp at h
  | cons x t ih =>
      intro n h
      cases n with
      | zero => rfl
      | succ n => exact ih n (by simpa using h)

lemma getD_append_len (l : List ℚ) (x : ℚ) : (l ++ [x]).getD l.length 0 = x := by
  induction l with
  | nil => rfl
  | cons y t ih => exact ih

lemma take_len_succ_append (l : List ℚ) (x : ℚ) : (l ++ [x]).take (l.length + 1) = l ++ [x] := by
  induction l with
  | nil => rfl
  | cons y t ih => exact congrArg (List.cons y) ih

lemma sum_map_mul_const (c : ℚ) (l : List ℚ) : (l.map (fun x => c * x)).sum = c * l.sum := by
  induction l with
  | nil => simp
  | cons x t ih => simp [ih, mul_add]

/-- The EV history has one entry per recorded stake, its last entry is
`EV_per_dollar × (total wagered)`, and its k-th entry is `EV_per_dollar`
times the sum of the first k+1 stakes. -/
def EvInv (s : SimState) : Prop :=
  s.expected_value_history.length = s.bet_history.length ∧
  s.expected_value_history.getLast?.getD 0 =
    EXPECTED_VALUE_PER_DOLLAR * s.bet_history.sum ∧
  ∀ k, k < s.bet_history.length →
    s.expected_value_history.getD k 0 =
      EXPECTED_VALUE_PER_DOLLAR * (s.bet_history.take (k + 1)).sum

lemma update_statistics_ev_history (s : SimState) (r : ℤ) (b : ℚ) :
    (update_statistics s r b).expected_value_history =
      s.expected_value_history ++
        [s.expected_value_history.getLast?.getD 0 + EXPECTED_VALUE_PER_DOLLAR * b] := by
  show s.expected_value_history ++ [_] = _
  congr 1
  cases hc : s.expected_value_history.getLast? with
  | none => simp
  | some prev => simp

lemma update_statistics_bet_history (s : SimState) (r : ℤ) (b : ℚ) :
    (update_statistics s r b).bet_history = s.bet_history ++ [b] := rfl

lemma evInv_update (s : SimState) (r : ℤ) (b : ℚ) (h : EvInv s) :
    EvInv (update_statistics s r b) := by
  obtain ⟨hlen, hlast, hall⟩ := h
  refine ⟨?_, ?_, ?_⟩
  · rw [update_statistics_ev_history, update_statistics_bet_history]
    simp [hlen]
  · rw [update_statistics_ev_history, update_statistics_bet_history,
      List.getLast?_concat, List.sum_append, hlast]
    simp [mul_add]
  · intro k hk
    rw [update_statistics_bet_history] at hk
    simp only [List.length_append, List.length_singleton] at hk
    rw [update_statistics_ev_history, update_statistics_bet_history]
    rcases Nat.lt_or_ge k s.bet_history.length with hk' | hk'
    · rw [getD_append_lt _ _ k (by rw [hlen]; exact hk'),
        List.take_append_of_le_length (by omega)]
      exact hall k hk'
    · have hkeq : k = s.bet_history.length := by omega
      subst hkeq
      rw [show s.bet_history.length = s.expected_value_history.length from hlen.symm,
        getD_append_len, hlen, take_len_succ_append, List.sum_append, hlast]
      simp [mul_add]

lemma evInv_step (s : SimState) (u : ℚ) (h : EvInv s) : EvInv (run_single_hand s u).2 := by
  rcases run_single_hand_snd_cases s u with hc | ⟨_, hc⟩
  · rw [hc]; exact h
  · rw [hc]
    exact evInv_update s (play_hand u)
      (s.strategy.get_bet_amount s.base_bet (signed_streak s) s.total_profit
        s.current_hand s.max_bet) h

lemma evInv_init (n : ℤ) (base max_bet : ℚ) (strat : Strategy) :
    EvInv (init n base max_bet strat) :=
  ⟨rfl, by simp [init], fun k hk => absurd hk (by simp [init])⟩

/-- C5: after any run, the EV history has exactly one entry per round, and
its k-th entry (the cumulative expected value after k+1 completed rounds)
equals the sum of `EV_per_dollar × stake_i` over the first k+1 recorded
stakes, where `EV_per_dollar` is the fixed constant -0.07. -/
theorem C5_cumulative_ev (n : ℤ) (base max_bet : ℚ) (strat : Strategy) (us : List ℚ) :
    EXPECTED_VALUE_PER_DOLLAR = -(7/100) ∧
    (runFrom (init n base max_bet strat) us).expected_value_history.length =
      (runFrom (init n base max_bet strat) us).bet_history.length ∧
    ∀ k : ℕ, k < (runFrom (init n base max_bet strat) us).bet_history.length →
      (runFrom (init n base max_bet strat) us).expected_value_history.getD k 0 =
        (((runFrom (init n base max_bet strat) us).bet_history.take (k + 1)).map
            (fun stake => EXPECTED_VALUE_PER_DOLLAR * stake)).sum := by
  have h : EvInv (runFrom (init n base max_bet strat) us) :=
    runFrom_preserves evInv_step us _ (evInv_init n base max_bet strat)
  refine ⟨by norm_num [EXPECTED_VALUE_PER_DOLLAR], h.1, ?_⟩
  intro k hk
  rw [h.2.2 k hk, sum_map_mul_const]

/-- C5, witness: one flat-bet round with stake 10 gives first EV entry
-0.07 × 10 = -0.7. -/
theorem C5_cumulative_ev_witness :
    0 < (runFrom (init 1 10 100 Strategy.flat) [1/2]).bet_history.length ∧
    (runFrom (init 1 10 100 Strategy.flat) [1/2]).expected_value_history.getD 0 0 =
      (((runFrom (init 1 10 100 Strategy.flat) [1/2]).bet_history.take 1).map
          (fun stake => EXPECTED_VALUE_PER_DOLLAR * stake)).sum :=
  ⟨by norm_num [runFrom, run_single_hand, init, update_statistics, play_hand, signed_streak,
      Strategy.get_bet_amount, WIN_PROBABILITY, LOSS_PROBABILITY, EXPECTED_VALUE_PER_DOLLAR],
   (C5_cumulative_ev 1 10 100 Strategy.flat [1/2]).2.2 0
    (by norm_num [runFrom, run_single_hand, init, update_statistics, play_hand, signed_streak,
      Strategy.get_bet_amount, WIN_PROBABILITY, LOSS_PROBABILITY, EXPECTED_VALUE_PER_DOLLAR])⟩

end Blackjack

namespace Blackjack

/-! ## C6: wins + losses + ties account for every round -/

/-- Every recorded hand result is one of the three encoded outcomes. -/
def ResInv (s : SimState) : Prop :=
  ∀ x ∈ s.hand_results, x = 1 ∨ x = -1 ∨ x = 0

lemma count_sum_eq_length (l : List ℤ) (h : ∀ x ∈ l, x = 1 ∨ x = -1 ∨ x = 0) :
    l.count 1 + l.count (-1) + l.count 0 = l.length := by
  induction l with
  | nil => rfl
  | cons a t ih =>
      have ha := h a (List.mem_cons_self a t)
      have ht : ∀ x ∈ t, x = 1 ∨ x = -1 ∨ x = 0 :=
        fun x hx => h x (List.mem_cons_of_mem a hx)
      have hsum := ih ht
      rcases ha with rfl | rfl | rfl <;>
        simp [List.count_cons] <;> omega

lemma update_statistics_hand_results (s : SimState) (r : ℤ) (b : ℚ) :
    (update_statistics s r b).hand_results = s.hand_results ++ [r] := rfl

lemma resInv_step (s : SimState) (u : ℚ) (h : ResInv s) : ResInv (run_single_hand s u).2 := by
  rcases run_single_hand_snd_cases s u with hc | ⟨_, hc⟩
  · rw [hc]; exact h
  · rw [hc]
    intro x hx
    have hx' : x ∈ s.hand_results ++ [play_hand u] := hx
    rcases List.mem_append.mp hx' with hm | hm
    · exact h x hm
    · have := List.mem_singleton.mp hm
      subst this
      rcases play_hand_cases u with hp | hp | hp <;> rw [hp] <;> tauto

lemma step_projections (s : SimState) (u : ℚ) (h : s.current_hand < s.num_hands) :
    (run_single_hand s u).2.current_hand = s.current_hand + 1 ∧
    (run_single_hand s u).2.num_hands = s.num_hands ∧
    (run_single_hand s u).2.hand_results.length = s.hand_results.length + 1 := by
  rw [run_single_hand_of_lt s u h]
  refine ⟨rfl, rfl, ?_⟩
  show (s.hand_results ++ [play_hand u]).length = _
  simp

lemma run_hands_fuel_spec : ∀ (k : ℕ) (s : SimState) (d : ℕ → ℚ),
    s.current_hand + k ≤ s.num_hands →
    (run_hands_fuel k s d).current_hand = s.current_hand + k ∧
    (run_hands_fuel k s d).num_hands = s.num_hands ∧
    (run_hands_fuel k s d).hand_results.length = s.hand_results.length + k := by
  intro k
  induction k with
  | zero =>
      intro s d _
      refine ⟨?_, rfl, ?_⟩
      · show s.current_hand = s.current_hand + ((0 : ℕ) : ℤ)
        omega
      · show s.hand_results.length = s.hand_results.length + 0
        omega
  | succ k ih =>
      intro s d h
      have hlt : s.current_hand < s.num_hands := by push_cast at h; omega
      obtain ⟨h1, h2, h3⟩ := step_projections s (d 0) hlt
      have hrec := ih (run_single_hand s (d 0)).2 (fun i => d (i + 1))
        (by rw [h1, h2]; push_cast at h ⊢; omega)
      obtain ⟨r1, r2, r3⟩ := hrec
      refine ⟨?_, ?_, ?_⟩
      · show (run_hands_fuel k (run_single_hand s (d 0)).2 (fun i => d (i + 1))).current_hand = _
        rw [r1, h1]; push_cast; ring
      · show (run_hands_fuel k (run_single_hand s (d 0)).2 (fun i => d (i + 1))).num_hands = _
        rw [r2, h2]
      · show (run_hands_fuel k (run_single_hand s (d 0)).2
            (fun i => d (i + 1))).hand_results.length = _
        rw [r3, h3]; omega

/-- C6: with round_count > 0, once `run_all_hands` returns, the statistics
snapshot exists and its wins + losses + ties equal round_count; and at any
point of any run the three outcome counts sum to the length of the recorded
history. -/
theorem C6_outcome_counts (n : ℤ) (base max_bet : ℚ) (strat : Strategy) (d : ℕ → ℚ)
    (h : 0 < n) :
    (∃ st : Stats, get_statistics (run_all_hands (init n base max_bet strat) d) = some st ∧
        (st.wins : ℤ) + st.losses + st.ties = n) ∧
    ∀ us : List ℚ,
      (runFrom (init n base max_bet strat) us).hand_results.count 1 +
        (runFrom (init n base max_bet strat) us).hand_results.count (-1) +
        (runFrom (init n base max_bet strat) us).hand_results.count 0 =
        (runFrom (init n base max_bet strat) us).hand_results.length := by
  constructor
  · have hrun : run_all_hands (init n base max_bet strat) d =
        run_hands_fuel (n - 0).toNat (init n base max_bet strat) d := rfl
    obtain ⟨-, -, hlen⟩ := run_hands_fuel_spec (n - 0).toNat (init n base max_bet strat) d
      (by show (0 : ℤ) + ((n - 0).toNat : ℤ) ≤ n; omega)
    have hres : ResInv (run_all_hands (init n base max_bet strat) d) := by
      rw [hrun]
      exact run_hands_fuel_preserves resInv_step _ _ _
        (fun x hx => absurd hx (List.not_mem_nil x))
    have hlen' : (run_all_hands (init n base max_bet strat) d).hand_results.length =
        (n - 0).toNat := by
      rw [hrun, hlen]
      show (init n base max_bet strat).hand_results.length + _ = _
      simp [init]
    have hne : ¬ (run_all_hands (init n base max_bet strat) d).hand_results.length = 0 := by
      omega
    have hcount := count_sum_eq_length
      (run_all_hands (init n base max_bet strat) d).hand_results hres
    have hstat : ∃ st : Stats,
        get_statistics (run_all_hands (init n base max_bet strat) d) = some st ∧
        st.wins = (run_all_hands (init n base max_bet strat) d).hand_results.count 1 ∧
        st.losses = (run_all_hands (init n base max_bet strat) d).hand_results.count (-1) ∧
        st.ties = (run_all_hands (init n base max_bet strat) d).hand_results.count 0 := by
      simp only [get_statistics]
      rw [if_neg hne]
      exact ⟨_, rfl, rfl, rfl, rfl⟩
    obtain ⟨st, hst, hw, hlo, hti⟩ := hstat
    refine ⟨st, hst, ?_⟩
    rw [hw, hlo, hti]
    omega
  · intro us
    have hres : ResInv (runFrom (init n base max_bet strat) us) :=
      runFrom_preserves resInv_step us _ (fun x hx => absurd hx (List.not_mem_nil x))
    exact count_sum_eq_length _ hres

/-- C6, witness: two rounds, all draws 0 (forced losses): the snapshot exists
and 0 wins + 2 losses + 0 ties = 2 rounds. -/
theorem C6_outcome_counts_witness :
    (0 : ℤ) < 2 ∧
    ∃ st : Stats, get_statistics (run_all_hands (init 2 10 100 Strategy.flat) (fun _ => 0)) =
        some st ∧ (st.wins : ℤ) + st.losses + st.ties = 2 :=
  ⟨by norm_num,
   (C6_outcome_counts 2 10 100 Strategy.flat (fun _ => 0) (by norm_num)).1⟩

end Blackjack

namespace Blackjack

/-- C9, witness: after one forced losing round of stake 10, the peak is the
fold of max over the profit curve seeded at 0 — concretely 0, not -10. -/
theorem C9_extrema_include_zero_witness :
    (runFrom (init 1 10 100 Strategy.flat) [0]).highest_profit =
      (runFrom (init 1 10 100 Strategy.flat) [0]).profit_history.foldl max 0 :=
  (C9_extrema_include_zero 1 10 100 Strategy.flat [0]).1

end Blackjack
